import Mathlib

/-!
# Verification of the pyCollocation collocation solver core

A shallow embedding of `pycollocation/solvers.py` (the `Solver` base class):
symbolic expressions and their compilation (`sympy.lambdify`), the
model/parameter validators, parameter canonicalization, the coefficient
array ↔ per-variable mapping codec, residual assembly (interior and
boundary residuals), the process-wide compiled-RHS cache, and the
uninitialized-result state of a freshly constructed solver.

Conventions of the embedding:
* numpy arrays of rationals are `List ℚ`; a single sample point is `ℚ`
  (the vectorized callables of the source are modelled at one point,
  applied elementwise);
* Python `dict`s whose iteration order matters are association lists
  `List (key × value)` (Python dicts preserve insertion order);
* the `model.rhs` dict is modelled as a total function `String → Expr`
  (the solver only ever looks up dependent variables, which are keys of
  that dict);
* code paths that raise are modelled with `Option`/`Except`.
-/

namespace PyCollocation

/-- Symbolic expressions, as produced by sympy and consumed by
`Solver._lambdify_factory`. -/
inductive Expr where
  | const (q : ℚ)
  | var (name : String)
  | add (a b : Expr)
  | sub (a b : Expr)
  | mul (a b : Expr)
  | neg (a : Expr)
deriving Repr

/-- Evaluate an expression under an environment binding symbol names to
numeric values (first binding wins, like positional argument binding). -/
def evalExpr (env : List (String × ℚ)) : Expr → ℚ
  | .const q => q
  | .var s => ((env.lookup s).getD 0)
  | .add a b => evalExpr env a + evalExpr env b
  | .sub a b => evalExpr env a - evalExpr env b
  | .mul a b => evalExpr env a * evalExpr env b
  | .neg a => -(evalExpr env a)

/-- `sym.lambdify(args, expr, modules)`: compile a symbolic expression into
a numeric callable taking one positional argument per symbol in `args`.
The callable binds the i-th symbol of `args` to the i-th positional value. -/
def lambdify (args : List String) (e : Expr) : List ℚ → ℚ :=
  fun vals => evalExpr (args.zip vals) e

/-- `sym.lambdify` applied to a list of expressions (as done for
boundary-condition expression lists): the compiled callable returns the
list of elementwise values. -/
def lambdifyList (args : List String) (es : List Expr) : List ℚ → List ℚ :=
  fun vals => es.map (evalExpr (args.zip vals))

/-- The interface of `models.SymbolicModel` that `solvers.py` consumes:
independent-variable symbol, ordered dependent-variable symbols, the
variable → RHS-expression mapping, and the optional lower/upper
boundary-condition expression lists (`model.boundary_conditions['lower']`
and `['upper']`). -/
structure SymbolicModel where
  independent_var : String
  dependent_vars : List String
  rhs : String → Expr
  bc_lower : Option (List Expr)
  bc_upper : Option (List Expr)

/-- The state a `Solver` instance carries into residual assembly: its
(validated) model and its stored parameter dictionary `_params`
(an ordered association list, as produced by the `params` setter). -/
structure SolverCfg where
  model : SymbolicModel
  params : List (String × ℚ)

/-- `Solver._symbolic_vars`: the independent variable followed by the
dependent variables. -/
def symbolicVars (cfg : SolverCfg) : List String :=
  cfg.model.independent_var :: cfg.model.dependent_vars

/-- `Solver._symbolic_params`: the parameter symbols, in the stored
(canonically ordered) key order of `self.params`. -/
def symbolicParams (cfg : SolverCfg) : List String :=
  cfg.params.map Prod.fst

/-- `Solver._symbolic_args = self._symbolic_vars + self._symbolic_params`. -/
def symbolicArgs (cfg : SolverCfg) : List String :=
  symbolicVars cfg ++ symbolicParams cfg

/-- `Solver._evaluate_basis_funcs(basis_funcs, points)`: the basis
function of each dependent variable evaluated at the points, in the
model's dependent-variable order. -/
def evaluateBasisFuncs (cfg : SolverCfg) (basis_funcs : String → ℚ → ℚ) (t : ℚ) : List ℚ :=
  cfg.model.dependent_vars.map (fun v => basis_funcs v t)

/-- The compiled RHS callable for `var`:
`self._lambdify_factory(self.model.rhs[var])`, i.e. the RHS expression
lambdified over `_symbolic_args` (cache-free value; the cache is modelled
by `rhsFunctionsSt`). -/
def rhsFunction (cfg : SolverCfg) (var : String) : List ℚ → ℚ :=
  lambdify (symbolicArgs cfg) (cfg.model.rhs var)

/-- `Solver._residual_function_factory(var, basis_derivs, basis_funcs)`:
the returned closure `residual_function(t)`, which computes
`basis_derivs[var](t) - self._rhs_functions(var)(t, *args)` with
`args = self._evaluate_basis_funcs(basis_funcs, t) + list(self.params.values())`. -/
def residualFunction (cfg : SolverCfg) (basis_derivs basis_funcs : String → ℚ → ℚ)
    (var : String) : ℚ → ℚ :=
  fun t =>
    basis_derivs var t -
      rhsFunction cfg var (t :: (evaluateBasisFuncs cfg basis_funcs t ++ cfg.params.map Prod.snd))

/-- `Solver._lower_boundary_condition` composed with
`Solver._evaluate_lower_boundary_residual`: `none` when the model has no
lower boundary condition, otherwise the compiled condition evaluated at
the lower bound with the basis values there and the parameter values. -/
def evaluateLowerBoundaryResidual (cfg : SolverCfg) (basis_funcs : String → ℚ → ℚ)
    (lower_bound : ℚ) : Option (List ℚ) :=
  match cfg.model.bc_lower with
  | none => none
  | some condition =>
      some (lambdifyList (symbolicArgs cfg) condition
        (lower_bound :: (evaluateBasisFuncs cfg basis_funcs lower_bound ++
          cfg.params.map Prod.snd)))

/-- `Solver._upper_boundary_condition` composed with
`Solver._evaluate_upper_boundary_residual`. -/
def evaluateUpperBoundaryResidual (cfg : SolverCfg) (basis_funcs : String → ℚ → ℚ)
    (upper_bound : ℚ) : Option (List ℚ) :=
  match cfg.model.bc_upper with
  | none => none
  | some condition =>
      some (lambdifyList (symbolicArgs cfg) condition
        (upper_bound :: (evaluateBasisFuncs cfg basis_funcs upper_bound ++
          cfg.params.map Prod.snd)))

/-- `Solver._evaluate_boundary_residuals(basis_funcs, domain)`: start from
an empty list, append the lower residual if it is not `None`, then append
the upper residual if it is not `None`. -/
def evaluateBoundaryResiduals (cfg : SolverCfg) (basis_funcs : String → ℚ → ℚ)
    (domain : ℚ × ℚ) : List (List ℚ) :=
  let lower_residual := evaluateLowerBoundaryResidual cfg basis_funcs domain.1
  let upper_residual := evaluateUpperBoundaryResidual cfg basis_funcs domain.2
  let residuals : List (List ℚ) := []
  let residuals := match lower_residual with
    | some r => residuals ++ [r]
    | none => residuals
  let residuals := match upper_residual with
    | some r => residuals ++ [r]
    | none => residuals
  residuals

/-- `Solver._rhs_functions(var)` with the process-wide class-level cache
`_cached_rhs_functions` made explicit: look `var` up in the cache; on a
miss, lambdify `self.model.rhs[var]` and store it under the key `var`.
Returns the callable together with the updated cache. -/
def rhsFunctionsSt (cfg : SolverCfg) (cache : List (String × (List ℚ → ℚ)))
    (var : String) : (List ℚ → ℚ) × List (String × (List ℚ → ℚ)) :=
  match cache.lookup var with
  | some f => (f, cache)
  | none =>
      let f := lambdify (symbolicArgs cfg) (cfg.model.rhs var)
      (f, (var, f) :: cache)

/-- The sequential slicing loop of `Solver._coefs_array_to_dict`:
`coefs_dict[var] = coefs_array[:degree+1]; coefs_array = coefs_array[degree+1:]`
for each `(var, degree)` in the degrees mapping's iteration order. -/
def coefsSlices : List ℚ → List (String × ℕ) → List (String × List ℚ)
  | _, [] => []
  | arr, (v, d) :: rest => (v, arr.take (d + 1)) :: coefsSlices (arr.drop (d + 1)) rest

/-- `Solver._coefs_array_to_dict(coefs_array, degrees)`: asserts
`coefs_array.size == sum(degrees.values()) + len(degrees)` (i.e.
Σ (degree+1)), then slices sequentially; `none` models the failed
assertion (the spec's ShapeMismatch). -/
def coefsArrayToDict (coefs_array : List ℚ) (degrees : List (String × ℕ)) :
    Option (List (String × List ℚ)) :=
  if coefs_array.length = (degrees.map Prod.snd).sum + degrees.length then
    some (coefsSlices coefs_array degrees)
  else
    none

/-- `Solver._coefs_dict_to_array(coefs_dict)`: look up each dependent
variable's coefficient slice in the model's dependent-variable order and
concatenate (`np.hstack`). `none` models a `KeyError` on a missing
variable or `np.hstack`'s failure on an empty list of arrays. -/
def coefsDictToArray (dependent_vars : List String)
    (coefs_dict : List (String × List ℚ)) : Option (List ℚ) :=
  if dependent_vars = [] then none
  else (dependent_vars.mapM (fun v => coefs_dict.lookup v)).map List.flatten

/-- `Solver._order_params(params)`:
`collections.OrderedDict(sorted(params.items()))` — the entries sorted in
ascending key order (keys of a Python dict are distinct, so the tuple
comparison used by `sorted` reduces to key comparison). -/
def orderParams {α : Type} (params : List (String × α)) : List (String × α) :=
  List.insertionSort (fun a b => a.1 ≤ b.1) params

/-- The universe of Python values a caller can assign to the `model` or
`params` attributes: a `models.SymbolicModel` instance, a plain dict, a
number, a string, or a list. -/
inductive PyVal where
  | model (m : SymbolicModel)
  | dict (entries : List (String × PyVal))
  | num (x : ℚ)
  | str (s : String)
  | list (xs : List PyVal)

/-- The validation-failure taxonomy of the spec (§7). The source raises
`AttributeError` with a type-mismatch message; the spec names this
**ConfigurationError**. -/
inductive ConfigurationError where
  | invalidModel
  | invalidParams
deriving DecidableEq, Repr

/-- `Solver._validate_model(model)`: accept exactly instances of
`models.SymbolicModel`; any other value raises (fail-fast). -/
def validateModel (model : PyVal) : Except ConfigurationError SymbolicModel :=
  match model with
  | .model m => .ok m
  | _ => .error .invalidModel

/-- `Solver._validate_params(value)`: accept exactly `dict` instances;
any non-dict raises (fail-fast). Note the source checks only
`isinstance(value, dict)` — it never inspects the dict's values. -/
def validateParams (value : PyVal) : Except ConfigurationError (List (String × PyVal)) :=
  match value with
  | .dict entries => .ok entries
  | _ => .error .invalidParams

/-- The `params` setter: `self._params = self._order_params(self._validate_params(value))`. -/
def paramsSetter (value : PyVal) : Except ConfigurationError (List (String × PyVal)) := do
  let valid_params ← validateParams value
  pure (orderParams valid_params)

/-- The result object of the external nonlinear solver
(`scipy.optimize`-style): final coefficient vector `x`, success flag, and
diagnostics. -/
structure SolveResult where
  x : List ℚ
  success : Bool
  diagnostics : String
deriving Repr

/-- The attribute state of a `Solver` instance: the validated `_model`,
the validated and ordered `_params`, and the `_result` backing field,
which is `none` exactly when no solve has stored a result (the
constructor never sets it). -/
structure SolverObj where
  model : SymbolicModel
  params : List (String × PyVal)
  result : Option SolveResult

/-- `Solver.__init__(model, params)`: run the two property setters; the
`_result` backing field is never assigned. -/
def solverInit (model : PyVal) (params : PyVal) : Except ConfigurationError SolverObj := do
  let m ← validateModel model
  let p ← paramsSetter params
  pure ⟨m, p, none⟩

/-- Python attribute access on a possibly-unset backing field: raises
`AttributeError` when the field was never assigned. -/
inductive AttributeError where
  | unsetResult
deriving DecidableEq, Repr

/-- The public `result` property: `return self._result`, which raises
`AttributeError` when `_result` was never set. -/
def resultGetter (s : SolverObj) : Except AttributeError SolveResult :=
  match s.result with
  | some r => .ok r
  | none => .error .unsetResult

/-- The public `coefficients` property:
`self._coefs_array_to_dict(self.result.x, self.degrees)` (the `degrees`
attribute lives in subclasses, so it is a parameter here). Errors from
the `result` read propagate. -/
def coefficientsGetter (s : SolverObj) (degrees : List (String × ℕ)) :
    Except AttributeError (Option (List (String × List ℚ))) := do
  let r ← resultGetter s
  pure (coefsArrayToDict r.x degrees)

/-- `Solver._construct_basis_funcs` / `_construct_basis_derivs`: apply a
basis factory to each variable's coefficient slice (`β` abstracts the
basis-function objects that subclass factories build). -/
def constructBasis {β : Type} (factory : List ℚ → β)
    (coefs : List (String × List ℚ)) : List (String × β) :=
  coefs.map (fun p => (p.1, factory p.2))

/-- The public `functions` (resp. `derivatives`) property: it reads
`self.coefficients` and applies the basis factory, so an error from the
`result` read propagates. -/
def functionsGetter {β : Type} (s : SolverObj) (degrees : List (String × ℕ))
    (factory : List ℚ → β) :
    Except AttributeError (Option (List (String × β))) := do
  let coefs ← coefficientsGetter s degrees
  pure (coefs.map (constructBasis factory))

/-- Modelled from the spec: the solve orchestration
(`PolynomialSolver.solve`, §4.5) is not under `src/` — only the residual
assembly it uses is. Per the spec it invokes the external
nonlinear-equation solver once, supplying the full residual vector as the
target function and the initial coefficients as the starting point, and
returns that single call's result (coefficients, success flag,
diagnostics) as-is, with no internal retry. -/
def solveOrchestrator (extSolver : (List ℚ → List ℚ) → List ℚ → SolveResult)
    (residual_vector : List ℚ → List ℚ) (initial_coefs : List ℚ) : SolveResult :=
  extSolver residual_vector initial_coefs

/-! ## Helper lemmas -/

lemma zip_map_fst_snd_eq {α β : Type} (l : List (α × β)) :
    (l.map Prod.fst).zip (l.map Prod.snd) = l := by
  induction l with
  | nil => rfl
  | cons a t ih => simp [List.zip_cons_cons, ih]

lemma zip_self_map {α β : Type} (l : List α) (f : α → β) :
    l.zip (l.map f) = l.map (fun a => (a, f a)) := by
  induction l with
  | nil => rfl
  | cons a t ih => simp [List.zip_cons_cons, ih]

lemma optionMapM_congr {α β : Type} (f g : α → Option β) :
    ∀ (l : List α), (∀ a ∈ l, f a = g a) → l.mapM f = l.mapM g := by
  intro l
  induction l with
  | nil => intro _; rfl
  | cons a t ih =>
      intro h
      simp only [List.mapM_cons, h a (by simp), ih (fun b hb => h b (by simp [hb]))]

/-- Looking every key of an association list with distinct keys back up in
that very list recovers exactly the stored values. -/
lemma mapM_lookup_self {α : Type} :
    ∀ (coefs : List (String × α)), (coefs.map Prod.fst).Nodup →
      (coefs.map Prod.fst).mapM (fun v => coefs.lookup v) = some (coefs.map Prod.snd) := by
  intro coefs
  induction coefs with
  | nil => intro _; rfl
  | cons p rest ih =>
      intro hnodup
      simp only [List.map_cons, List.nodup_cons] at hnodup
      have hcongr : (rest.map Prod.fst).mapM (fun v => ((p :: rest).lookup v)) =
          (rest.map Prod.fst).mapM (fun v => rest.lookup v) := by
        refine optionMapM_congr _ _ _ (fun a ha => ?_)
        have hne : ¬ (a == p.1) = true := by
          intro hbeq
          have : p.1 ∈ rest.map Prod.fst := by rw [← eq_of_beq hbeq]; exact ha
          exact hnodup.1 this
        simp [List.lookup, hne]
      rw [List.map_cons, List.mapM_cons, hcongr, ih hnodup.2]
      simp [List.lookup]

/-- `coefsSlices` always reproduces the key sequence of the degrees
mapping. -/
lemma coefsSlices_map_fst :
    ∀ (degrees : List (String × ℕ)) (arr : List ℚ),
      (coefsSlices arr degrees).map Prod.fst = degrees.map Prod.fst := by
  intro degrees
  induction degrees with
  | nil => intro _; rfl
  | cons d rest ih => intro arr; simp [coefsSlices, ih]

/-- When the flat array is long enough, every slice produced by
`coefsSlices` has exactly `degree + 1` entries. -/
lemma coefsSlices_lengths :
    ∀ (degrees : List (String × ℕ)) (arr : List ℚ),
      (degrees.map (fun d => d.2 + 1)).sum ≤ arr.length →
      List.Forall₂ (fun (p : String × List ℚ) (d : String × ℕ) => p.2.length = d.2 + 1)
        (coefsSlices arr degrees) degrees := by
  intro degrees
  induction degrees with
  | nil => intro _ _; exact List.Forall₂.nil
  | cons d rest ih =>
      intro arr harr
      simp only [List.map_cons, List.sum_cons] at harr
      refine List.Forall₂.cons ?_ (ih _ ?_)
      · simp only [List.length_take]
        omega
      · simp only [List.length_drop]
        omega

/-- Slicing the concatenation of slices whose lengths match the degrees
recovers the original per-variable mapping. -/
lemma coefsSlices_flatten :
    ∀ (coefs : List (String × List ℚ)) (degrees : List (String × ℕ)),
      coefs.map Prod.fst = degrees.map Prod.fst →
      List.Forall₂ (fun (c : String × List ℚ) (d : String × ℕ) => c.2.length = d.2 + 1)
        coefs degrees →
      coefsSlices (List.flatten (coefs.map Prod.snd)) degrees = coefs := by
  intro coefs degrees hkeys hlen
  induction hlen with
  | nil => rfl
  | @cons c d crest drest hcd _ ih =>
      simp only [List.map_cons, List.cons.injEq] at hkeys
      simp only [List.map_cons, List.flatten_cons, coefsSlices]
      rw [← hcd, List.take_left, List.drop_left, ih hkeys.2]
      simp [← hkeys.1]

/-- The total length of the concatenated slices is `Σ (degree + 1)`. -/
lemma flatten_length_of_forall2 :
    ∀ (coefs : List (String × List ℚ)) (degrees : List (String × ℕ)),
      List.Forall₂ (fun (c : String × List ℚ) (d : String × ℕ) => c.2.length = d.2 + 1)
        coefs degrees →
      (List.flatten (coefs.map Prod.snd)).length =
        (degrees.map Prod.snd).sum + degrees.length := by
  intro coefs degrees hlen
  induction hlen with
  | nil => rfl
  | @cons c d crest drest hcd _ ih =>
      simp only [List.map_cons, List.flatten_cons, List.length_append, ih,
        List.sum_cons, List.length_cons, hcd]
      omega

lemma sum_degree_succ (degrees : List (String × ℕ)) :
    (degrees.map (fun d => d.2 + 1)).sum = (degrees.map Prod.snd).sum + degrees.length := by
  induction degrees with
  | nil => rfl
  | cons d rest ih => simp [ih]; omega

/-! ## Theorems for the claims -/

/-- C1: for every dependent variable `var` and sample point `t`, the
residual function produced by `_residual_function_factory` returns the
basis derivative of `var` at `t` minus the compiled RHS callable applied
to `(t, basis values of every dependent variable at t in the model's
dependent-variable order, parameter values in the stored params order)`;
and since the RHS was lambdified over the same symbol order
`[independent variable, dependent variables, parameters]`, this equals
the RHS expression evaluated with the independent variable bound to `t`,
each dependent variable bound to its basis value at `t`, and each
parameter bound to its value. -/
theorem residual_function_matches_compiled_rhs (cfg : SolverCfg)
    (basis_derivs basis_funcs : String → ℚ → ℚ) (var : String) (t : ℚ) :
    residualFunction cfg basis_derivs basis_funcs var t =
      basis_derivs var t -
        rhsFunction cfg var
          (t :: (evaluateBasisFuncs cfg basis_funcs t ++ cfg.params.map Prod.snd)) ∧
    residualFunction cfg basis_derivs basis_funcs var t =
      basis_derivs var t -
        evalExpr ((cfg.model.independent_var, t) ::
            (cfg.model.dependent_vars.map (fun v => (v, basis_funcs v t)) ++ cfg.params))
          (cfg.model.rhs var) := by
  refine ⟨rfl, ?_⟩
  have hzip : (symbolicArgs cfg).zip
      (t :: (evaluateBasisFuncs cfg basis_funcs t ++ cfg.params.map Prod.snd)) =
      (cfg.model.independent_var, t) ::
        (cfg.model.dependent_vars.map (fun v => (v, basis_funcs v t)) ++ cfg.params) := by
    have hlen : cfg.model.dependent_vars.length =
        (evaluateBasisFuncs cfg basis_funcs t).length := by
      simp [evaluateBasisFuncs]
    simp only [symbolicArgs, symbolicVars, symbolicParams, List.cons_append,
      List.zip_cons_cons]
    rw [List.zip_append hlen, zip_map_fst_snd_eq, evaluateBasisFuncs, zip_self_map]
  simp only [residualFunction, rhsFunction, lambdify, hzip]

/-- C2: the boundary-residual list contains exactly one entry per side
with a defined boundary condition — the lower entry (when present) is the
compiled lower condition evaluated at the lower domain endpoint with the
basis values there and the parameter values, then likewise the upper
entry at the upper endpoint; a side with no condition contributes
nothing, so the length is 0, 1 or 2 according to which sides are
defined. -/
theorem boundary_residuals_per_defined_side (cfg : SolverCfg)
    (basis_funcs : String → ℚ → ℚ) (domain : ℚ × ℚ) :
    evaluateBoundaryResiduals cfg basis_funcs domain =
      (cfg.model.bc_lower.map (fun condition =>
        lambdifyList (symbolicArgs cfg) condition
          (domain.1 :: (evaluateBasisFuncs cfg basis_funcs domain.1 ++
            cfg.params.map Prod.snd)))).toList ++
      (cfg.model.bc_upper.map (fun condition =>
        lambdifyList (symbolicArgs cfg) condition
          (domain.2 :: (evaluateBasisFuncs cfg basis_funcs domain.2 ++
            cfg.params.map Prod.snd)))).toList ∧
    (evaluateBoundaryResiduals cfg basis_funcs domain).length =
      (if cfg.model.bc_lower.isSome then 1 else 0) +
        (if cfg.model.bc_upper.isSome then 1 else 0) := by
  cases hl : cfg.model.bc_lower <;> cases hu : cfg.model.bc_upper <;>
    simp [evaluateBoundaryResiduals, evaluateLowerBoundaryResidual,
      evaluateUpperBoundaryResidual, hl, hu]

/-- C3 counterexample: the round trip fails when the degrees mapping's
iteration order (`y` before `x`) differs from the model's
dependent-variable order (`x` before `y`), even though every slice has
length `degree + 1` (x: 1 = 0+1, y: 2 = 1+1): converting
`{x ↦ [0], y ↦ [1, 2]}` to an array and back yields `{y ↦ [0, 1], x ↦ [2]}`,
whose value at `x` differs from the original. -/
theorem coefs_roundtrip_counterexample :
    coefsDictToArray ["x", "y"] [("x", [(0 : ℚ)]), ("y", [1, 2])] = some [0, 1, 2] ∧
    coefsArrayToDict [0, 1, 2] [("y", 1), ("x", 0)] =
      some [("y", [0, 1]), ("x", [2])] ∧
    ([("x", [(0 : ℚ)])].length = 0 + 1 ∧ [(1 : ℚ), 2].length = 1 + 1) ∧
    ([("y", [(0 : ℚ), 1]), ("x", [2])].lookup "x" ≠
      [("x", [(0 : ℚ)]), ("y", [1, 2])].lookup "x") := by
  refine ⟨by decide, by decide, ⟨rfl, rfl⟩, by decide⟩

/-- C3 (amended): when additionally the degrees mapping's key sequence
agrees with the model's dependent-variable order, the coefficient mapping
stores exactly those variables (in that same order) with slices of length
`degree + 1`, and there is at least one dependent variable, the round
trip `to_mapping (to_array mapping) = mapping` holds exactly. -/
theorem coefs_roundtrip_amended (dependent_vars : List String)
    (degrees : List (String × ℕ)) (coefs : List (String × List ℚ))
    (hne : dependent_vars ≠ [])
    (hnodup : dependent_vars.Nodup)
    (hdeg : degrees.map Prod.fst = dependent_vars)
    (hkeys : coefs.map Prod.fst = dependent_vars)
    (hlen : List.Forall₂ (fun (c : String × List ℚ) (d : String × ℕ) =>
      c.2.length = d.2 + 1) coefs degrees) :
    ∃ arr, coefsDictToArray dependent_vars coefs = some arr ∧
      coefsArrayToDict arr degrees = some coefs := by
  refine ⟨List.flatten (coefs.map Prod.snd), ?_, ?_⟩
  · rw [coefsDictToArray, if_neg hne, ← hkeys,
      mapM_lookup_self coefs (hkeys ▸ hnodup)]
    rfl
  · rw [coefsArrayToDict, if_pos (flatten_length_of_forall2 coefs degrees hlen),
      coefsSlices_flatten coefs degrees (hkeys.trans hdeg.symm) hlen]

/-- C3 amended, witness: the round trip at the concrete instance with
dependent variables `[x, y]`, degrees `{x ↦ 0, y ↦ 1}` iterated in that
same order, and mapping `{x ↦ [5], y ↦ [6, 7]}`. -/
theorem coefs_roundtrip_amended_witness :
    ∃ arr, coefsDictToArray ["x", "y"] [("x", [(5 : ℚ)]), ("y", [6, 7])] = some arr ∧
      coefsArrayToDict arr [("x", 0), ("y", 1)] =
        some [("x", [(5 : ℚ)]), ("y", [6, 7])] :=
  coefs_roundtrip_amended ["x", "y"] [("x", 0), ("y", 1)]
    [("x", [(5 : ℚ)]), ("y", [6, 7])] (by decide) (by decide) rfl rfl
    (by simp [List.forall₂_cons])

/-- C4: `_coefs_array_to_dict` fails (its shape assertion — the spec's
ShapeMismatch) exactly when the flat array's size differs from
`Σ (degree + 1)`; when the sizes agree it succeeds, and the returned
mapping has exactly one entry per variable of the degrees mapping, in
its order, each entry of size `degree + 1`. -/
theorem coefs_array_to_dict_shape (coefs_array : List ℚ)
    (degrees : List (String × ℕ)) :
    (coefsArrayToDict coefs_array degrees = none ↔
      coefs_array.length ≠ (degrees.map (fun d => d.2 + 1)).sum) ∧
    (∀ m, coefsArrayToDict coefs_array degrees = some m →
      m.map Prod.fst = degrees.map Prod.fst ∧
      List.Forall₂ (fun (p : String × List ℚ) (d : String × ℕ) =>
        p.2.length = d.2 + 1) m degrees) := by
  constructor
  · rw [sum_degree_succ, coefsArrayToDict]
    split
    · simp_all
    · simp_all
  · intro m hm
    rw [coefsArrayToDict] at hm
    split at hm
    · cases hm
      rename_i hsize
      exact ⟨coefsSlices_map_fst degrees coefs_array,
        coefsSlices_lengths degrees coefs_array (by rw [sum_degree_succ]; omega)⟩
    · cases hm

/-- C4 witness: at the concrete array `[1, 2, 3]` and degrees
`{x ↦ 0, y ↦ 1}` (sizes agree: 3 = 1 + 2), conversion succeeds with one
entry per variable of size `degree + 1`. -/
theorem coefs_array_to_dict_shape_witness :
    [("x", [(1 : ℚ)]), ("y", [2, 3])].map Prod.fst =
        [("x", 0), ("y", 1)].map Prod.fst ∧
      List.Forall₂ (fun (p : String × List ℚ) (d : String × ℕ) =>
        p.2.length = d.2 + 1) [("x", [(1 : ℚ)]), ("y", [2, 3])] [("x", 0), ("y", 1)] :=
  (coefs_array_to_dict_shape [1, 2, 3] [("x", 0), ("y", 1)]).2
    [("x", [(1 : ℚ)]), ("y", [2, 3])] (by decide)

/-- C5: for every dict assigned to the `params` attribute, the stored
mapping is exactly the same key→value pairs (a permutation) re-keyed in
ascending lexicographic key order — `_order_params` is a pure function,
applied by the setter on every assignment; in particular assigning
`{'b': 1, 'a': 2}` stores the keys in the order `['a', 'b']`. -/
theorem params_setter_canonicalizes :
    (∀ (entries : List (String × PyVal)),
      paramsSetter (.dict entries) = .ok (orderParams entries) ∧
      (orderParams entries).Perm entries ∧
      List.Sorted (· ≤ ·) ((orderParams entries).map Prod.fst)) ∧
    paramsSetter (.dict [("b", .num 1), ("a", .num 2)]) =
      .ok [("a", PyVal.num 2), ("b", PyVal.num 1)] := by
  constructor
  · intro entries
    haveI htot : IsTotal (String × PyVal) (fun a b => a.1 ≤ b.1) :=
      ⟨fun a b => le_total a.1 b.1⟩
    haveI htrans : IsTrans (String × PyVal) (fun a b => a.1 ≤ b.1) :=
      ⟨fun _ _ _ hab hbc => le_trans hab hbc⟩
    refine ⟨rfl, List.perm_insertionSort _ entries, ?_⟩
    exact List.Pairwise.map Prod.fst (fun a b h => h)
      (List.sorted_insertionSort _ entries)
  · simp [paramsSetter, validateParams, orderParams, List.insertionSort,
      List.orderedInsert, String.le_iff_toList_le]
    decide

/-- C6: `_rhs_functions(var)` compiles the RHS of `var` on the first
request and stores the callable in the cache keyed by the variable's
identifier only; a subsequent request for the same identifier — here from
an arbitrary second solver configuration reusing the variable name —
returns the already-cached callable compiled from the first
configuration's model, with the cache unchanged (no recompilation), so
the second solver observes the first model's compiled function. -/
theorem rhs_functions_cached_and_stale (cfg1 cfg2 : SolverCfg) (var : String) :
    rhsFunctionsSt cfg1 [] var =
      (lambdify (symbolicArgs cfg1) (cfg1.model.rhs var),
        [(var, lambdify (symbolicArgs cfg1) (cfg1.model.rhs var))]) ∧
    rhsFunctionsSt cfg2 (rhsFunctionsSt cfg1 [] var).2 var =
      ((rhsFunctionsSt cfg1 [] var).1, (rhsFunctionsSt cfg1 [] var).2) := by
  constructor
  · rfl
  · simp [rhsFunctionsSt, List.lookup]

/-- C7: any candidate that is not a `models.SymbolicModel` instance — for
example a plain mapping — fails model validation immediately, and any
candidate that is not a mapping fails params validation immediately, both
with the spec's ConfigurationError (fail-fast, not recovered locally). -/
theorem validation_fails_fast (v : PyVal) :
    ((∀ m, v ≠ PyVal.model m) →
      validateModel v = .error ConfigurationError.invalidModel) ∧
    ((∀ d, v ≠ PyVal.dict d) →
      validateParams v = .error ConfigurationError.invalidParams) := by
  cases v with
  | model m =>
      exact ⟨fun h => absurd rfl (h m), fun _ => rfl⟩
  | dict d =>
      exact ⟨fun _ => rfl, fun h => absurd rfl (h d)⟩
  | num x => exact ⟨fun _ => rfl, fun _ => rfl⟩
  | str s => exact ⟨fun _ => rfl, fun _ => rfl⟩
  | list xs => exact ⟨fun _ => rfl, fun _ => rfl⟩

/-- C7 witness: a plain mapping where a Model is required fails with
ConfigurationError, and a number where Params is required fails with
ConfigurationError. -/
theorem validation_fails_fast_witness :
    validateModel (PyVal.dict []) = .error ConfigurationError.invalidModel ∧
    validateParams (PyVal.num 3) = .error ConfigurationError.invalidParams :=
  ⟨(validation_fails_fast (PyVal.dict [])).1 (fun _ h => PyVal.noConfusion h),
    (validation_fails_fast (PyVal.num 3)).2 (fun _ h => PyVal.noConfusion h)⟩

/-- C8 counterexample: `_validate_params` accepts a mapping whose value
is a string — it checks only `isinstance(value, dict)` and never inspects
the values — contradicting the claim that a mapping with non-numeric
values fails with ConfigurationError. -/
theorem validate_params_accepts_nonnumeric :
    validateParams (PyVal.dict [("a", PyVal.str "not a number")]) =
      .ok [("a", PyVal.str "not a number")] := rfl

/-- C8 (amended): `_validate_params` accepts a value exactly when it is a
mapping (dict), regardless of whether its values are numeric; every
non-mapping fails with ConfigurationError. -/
theorem validate_params_accepts_exactly_dicts (v : PyVal) :
    (∀ d, v = PyVal.dict d → validateParams v = .ok d) ∧
    ((∀ d, v ≠ PyVal.dict d) →
      validateParams v = .error ConfigurationError.invalidParams) := by
  cases v with
  | model m => exact ⟨fun d h => PyVal.noConfusion h, fun _ => rfl⟩
  | dict d =>
      refine ⟨fun d' h => ?_, fun h => absurd rfl (h d)⟩
      cases h
      rfl
  | num x => exact ⟨fun d h => PyVal.noConfusion h, fun _ => rfl⟩
  | str s => exact ⟨fun d h => PyVal.noConfusion h, fun _ => rfl⟩
  | list xs => exact ⟨fun d h => PyVal.noConfusion h, fun _ => rfl⟩

/-- C8 amended, witness: a dict with a non-numeric value is accepted and
returned; a string where Params is required fails with
ConfigurationError. -/
theorem validate_params_accepts_exactly_dicts_witness :
    validateParams (PyVal.dict [("a", PyVal.str "x")]) =
      .ok [("a", PyVal.str "x")] ∧
    validateParams (PyVal.str "s") = .error ConfigurationError.invalidParams :=
  ⟨(validate_params_accepts_exactly_dicts (PyVal.dict [("a", PyVal.str "x")])).1 _ rfl,
    (validate_params_accepts_exactly_dicts (PyVal.str "s")).2
      (fun _ h => PyVal.noConfusion h)⟩

/-- C9 (modelled from the spec, §4.5: the solve orchestration is not
under `src/`): the orchestrator hands the full residual vector and the
initial coefficients to the external nonlinear solver exactly once and
returns that single call's Result unchanged — no internal retry — so two
invocations with an identical residual vector, identical initial
coefficients and the same deterministic external solver yield identical
Result coefficient vectors and success flags. -/
theorem solve_deterministic_no_retry
    (extSolver : (List ℚ → List ℚ) → List ℚ → SolveResult)
    (res1 res2 : List ℚ → List ℚ) (init1 init2 : List ℚ) :
    solveOrchestrator extSolver res1 init1 = extSolver res1 init1 ∧
    (res1 = res2 → init1 = init2 →
      solveOrchestrator extSolver res1 init1 =
        solveOrchestrator extSolver res2 init2) := by
  refine ⟨rfl, fun h1 h2 => ?_⟩
  rw [h1, h2]

/-- C9 witness: at a concrete deterministic external solver and concrete
inputs, the orchestrator returns the single external call's result, and
the two identical invocations agree. -/
theorem solve_deterministic_no_retry_witness :
    solveOrchestrator (fun f x => ⟨f x, true, "converged"⟩) id [1] =
      (fun (f : List ℚ → List ℚ) (x : List ℚ) =>
        SolveResult.mk (f x) true "converged") id [1] ∧
    solveOrchestrator (fun f x => ⟨f x, true, "converged"⟩) id [1] =
      solveOrchestrator (fun f x => ⟨f x, true, "converged"⟩) id [1] :=
  ⟨(solve_deterministic_no_retry (fun f x => ⟨f x, true, "converged"⟩)
      id id [1] [1]).1,
    (solve_deterministic_no_retry (fun f x => ⟨f x, true, "converged"⟩)
      id id [1] [1]).2 rfl rfl⟩

/-- C10: right after a successful `__init__` — the Uninitialized state —
the `_result` backing field is unset, so reading the public `result`
property raises `AttributeError`, and therefore so do `coefficients` and
the properties built from it (`functions`, `derivatives`, …); no defined
"no result yet" value is returned. -/
theorem uninitialized_result_raises (mv pv : PyVal) (s : SolverObj)
    (h : solverInit mv pv = .ok s) :
    s.result = none ∧
    resultGetter s = .error AttributeError.unsetResult ∧
    (∀ degrees, coefficientsGetter s degrees = .error AttributeError.unsetResult) ∧
    (∀ degrees (factory : List ℚ → (ℚ → ℚ)),
      functionsGetter s degrees factory = .error AttributeError.unsetResult) := by
  have hres : s.result = none := by
    cases mv with
    | model m =>
        cases pv with
        | dict d =>
            simp only [solverInit, validateModel, paramsSetter, validateParams,
              Except.bind, pure, Except.pure, bind] at h
            cases h
            rfl
        | model m' => simp [solverInit, validateModel, paramsSetter, validateParams,
            Except.bind, bind] at h
        | num x => simp [solverInit, validateModel, paramsSetter, validateParams,
            Except.bind, bind] at h
        | str a => simp [solverInit, validateModel, paramsSetter, validateParams,
            Except.bind, bind] at h
        | list xs => simp [solverInit, validateModel, paramsSetter, validateParams,
            Except.bind, bind] at h
    | dict d => simp [solverInit, validateModel, Except.bind, bind] at h
    | num x => simp [solverInit, validateModel, Except.bind, bind] at h
    | str a => simp [solverInit, validateModel, Except.bind, bind] at h
    | list xs => simp [solverInit, validateModel, Except.bind, bind] at h
  refine ⟨hres, ?_, ?_, ?_⟩
  · simp [resultGetter, hres]
  · intro degrees
    simp [coefficientsGetter, resultGetter, hres, Except.bind, bind]
  · intro degrees factory
    simp [functionsGetter, coefficientsGetter, resultGetter, hres, Except.bind, bind]

/-- A concrete one-variable model used to instantiate witnesses. -/
def sampleModel : SymbolicModel :=
  ⟨"t", ["x"], fun _ => Expr.var "x", none, none⟩

/-- C10 witness: constructing a solver from `sampleModel` and an empty
params dict succeeds, and on the constructed (Uninitialized) instance the
`result`, `coefficients` and `functions` reads all fail. -/
theorem uninitialized_result_raises_witness :
    SolverObj.result ⟨sampleModel, [], none⟩ = none ∧
    resultGetter ⟨sampleModel, [], none⟩ = .error AttributeError.unsetResult ∧
    coefficientsGetter ⟨sampleModel, [], none⟩ [("x", 0)] =
      .error AttributeError.unsetResult ∧
    functionsGetter ⟨sampleModel, [], none⟩ [("x", 0)] (fun c => (fun _ : ℚ => c.headD 0)) =
      .error AttributeError.unsetResult := by
  have h := uninitialized_result_raises (PyVal.model sampleModel) (PyVal.dict [])
    ⟨sampleModel, [], none⟩ rfl
  exact ⟨h.1, h.2.1, h.2.2.1 [("x", 0)], h.2.2.2 [("x", 0)] (fun c => (fun _ : ℚ => c.headD 0))⟩

end PyCollocation
